import Mathlib

/-!
# Verification of the Claw-Renamer core (`bot.py`)

A shallow embedding of the pure / state-passing core of the repository's
single source file `bot.py` (a Telegram file-rename bot), together with
proofs and refutations of the frozen specification claims.

Conventions of the embedding:
* Python strings are Lean `String`s; all character-level work is done on
  `String.data : List Char` so that closed computations reduce in the kernel.
* Python integers are `Nat` / `Int`.  The progress percentage
  `int(current / total * 100)` is modelled as exact floor division
  `current * 100 / total` (the spec's own contract states `floor`).
* The global dict `downloading_progress` is an association list from file
  name to the stored `prev_percentage`; the local `downloads/` directory is
  an association list from path to an abstract content tag (`Nat`).
* Fallible Python code is modelled with `Except` / an explicit
  exception-result type; `os.rename` is given its POSIX semantics
  (silently replacing an existing destination file).
-/

/-- The characters matched by the regex `[<>:"/\\|?*]` in
`sanitize_filename` (bot.py line 77). -/
def invalidChars : List Char := ['<', '>', ':', '\"', '/', '\\', '|', '?', '*']

/-- Whether a character is one of the invalid filename characters. -/
def isInvalidChar (c : Char) : Bool := invalidChars.contains c

/-- `sanitize_filename` (bot.py lines 74-82): delete every invalid
character, then truncate to 200 characters. -/
def sanitize_filename (s : String) : String :=
  ⟨(s.data.filter (fun c => !(isInvalidChar c))).take 200⟩

/-- Python `str.lower()` restricted to the ASCII case used here. -/
def pyLower (s : String) : String := ⟨s.data.map Char.toLower⟩

/-- Python `a.endswith(b)` for strings. -/
def pyEndsWith (s suf : String) : Bool := suf.data.isSuffixOf s.data

/-- Python `s.split(sep)` for a single-character separator, on char lists:
`splitChar sep []` is `[[]]`, matching `"".split(sep) == [""]`. -/
def splitChar (sep : Char) : List Char → List (List Char)
  | [] => [[]]
  | c :: cs =>
    match splitChar sep cs with
    | h :: t => if c == sep then [] :: h :: t else (c :: h) :: t
    | [] => if c == sep then [[], []] else [[c]]

/-- Python `path.split("/")[-1]`: the last segment of a `/`-separated
string (also the behaviour of `os.path.basename` on the paths used here). -/
def lastSegment (s : String) : String := ⟨(splitChar '/' s.data).getLastD []⟩

/-- Helper for `splitextExt`: scan the reversed character list for the last
dot; an extension exists only if some character left of that dot is not a
dot (CPython's `os.path.splitext` rule for a basename). `acc` carries the
characters to the right of the scan point, in original order. -/
def findExt : List Char → List Char → String
  | [], _ => ""
  | c :: rest, acc =>
    if c == '.' then
      if rest.any (fun x => x != '.') then ⟨'.' :: acc⟩ else ""
    else findExt rest (c :: acc)

/-- `os.path.splitext(name)[1]` for a basename (bot.py line 279). -/
def splitextExt (s : String) : String := findExt s.data.reverse []

/-- Decimal rendering of a natural number. -/
def natStr (n : Nat) : String := ⟨Nat.toDigits 10 n⟩

/-- Rendering of an integer, as produced by `f"{n:.0f}"` on an
integer-valued duration. -/
def intStr (z : Int) : String := if z < 0 then "-" ++ natStr z.natAbs else natStr z.natAbs

/-- `format_time` (bot.py lines 140-152).  Durations are modelled as exact
integers; Python `//` is floor division (`Int.fdiv`) and `%` with a
positive modulus is `Int.emod`. -/
def format_time (seconds : Int) : String :=
  if seconds < 60 then intStr seconds ++ "s"
  else if seconds < 3600 then
    intStr (seconds.fdiv 60) ++ "m " ++ intStr (seconds.emod 60) ++ "s"
  else
    intStr (seconds.fdiv 3600) ++ "h " ++ intStr ((seconds.emod 3600).fdiv 60) ++ "m "
      ++ intStr (seconds.emod 60) ++ "s"

/-- The fixed extension allow-list of `download_file` (bot.py line 170). -/
def allowedExts : List String :=
  [".jpg", ".jpeg", ".png", ".pdf", ".txt", ".mp4", ".avi", ".mkv", ".mov",
   ".mp3", ".wav", ".ogg", ".zip", ".rar", ".doc", ".docx", ".xls", ".xlsx",
   ".ppt", ".pptx"]

/-- `filename.lower().endswith((...))` against the allow-list
(bot.py line 170). -/
def hasAllowedExt (s : String) : Bool :=
  allowedExts.any (fun e => pyEndsWith (pyLower s) e)

/-- Truthiness of the optional `new_file_name` argument: Python
`if new_file_name:` is false for `None` and for the empty string. -/
def optStrTruthy (o : Option String) : Bool := (o.getD "") != ""

/-- Candidate file-name derivation of `download_file`
(bot.py lines 159-171), as a function of the optional desired name and the
parsed URL path. -/
def deriveCandidate (newFileName : Option String) (urlPath : String) : String :=
  let filename :=
    if optStrTruthy newFileName then sanitize_filename (newFileName.getD "")
    else sanitize_filename (if urlPath ≠ "" then lastSegment urlPath else "downloaded_file")
  let filename := if filename = "" then "downloaded_file" else filename
  if hasAllowedExt filename then filename else filename ++ ".txt"

/-- Modelled from the spec's words (§4.5 / claim C8), for comparison with
`deriveCandidate`: the base name comes from the desired name if given
(sanitized), else from the URL path's final segment (sanitized), else the
generic placeholder (also used when sanitization leaves nothing); `.txt`
is appended exactly when the base lacks an allow-listed extension. -/
def candidateSpec (newFileName : Option String) (urlPath : String) : String :=
  let base :=
    if optStrTruthy newFileName then
      let s := sanitize_filename (newFileName.getD "")
      if s = "" then "downloaded_file" else s
    else if urlPath ≠ "" then
      let s := sanitize_filename (lastSegment urlPath)
      if s = "" then "downloaded_file" else s
    else "downloaded_file"
  if hasAllowedExt base then base else base ++ ".txt"

/-- `int(current_bytes / total_bytes * 100)` (bot.py line 111), as exact
floor division. -/
def percentOf (cur total : Nat) : Nat := cur * 100 / total

/-- One call of `progress_bar_callback` for a given name
(bot.py lines 105-139), reduced to its observable core: `prev` is the
stored `prev_percentage` (0 when the entry was just created); the result is
the new `prev_percentage` together with the emitted rendering, represented
as the percentage shown and whether the `Finished downloading!` marker was
appended (line 133). -/
def reportStep (prev cur total : Nat) : Nat × Option (Nat × Bool) :=
  if prev < percentOf cur total then
    (percentOf cur total, some (percentOf cur total, percentOf cur total == 100))
  else (prev, none)

/-- The emissions produced by a sequence of `progress_bar_callback` calls
for one name with a fixed total, starting from stored percentage `prev`. -/
def trackEmits (prev total : Nat) : List Nat → List (Nat × Bool)
  | [] => []
  | c :: cs =>
    if prev < percentOf c total then
      (percentOf c total, percentOf c total == 100) :: trackEmits (percentOf c total) total cs
    else trackEmits prev total cs

/-- The global `downloading_progress` dict, reduced to the
`prev_percentage` field per file name (`start_time` plays no role in the
claims). -/
def ProgressTbl : Type := List (String × Nat)

/-- Set a key in the table (insert-or-overwrite). -/
def tblSet (tbl : ProgressTbl) (k : String) (v : Nat) : ProgressTbl :=
  (k, v) :: tbl.filter (fun kv => kv.1 != k)

/-- Net effect of one `progress_bar_callback` call on `downloading_progress`
(bot.py lines 105-113): create the entry with `prev_percentage = 0` if
missing, then raise it to the new percentage when that strictly exceeds it. -/
def progressCallbackTbl (tbl : ProgressTbl) (name : String) (cur total : Nat) : ProgressTbl :=
  let prev := ((tbl : List (String × Nat)).lookup name).getD 0
  tblSet tbl name (reportStep prev cur total).1

/-- The chunk loop of `download_file` (bot.py lines 191-196): `chunks` are
the sizes of the chunks received so far; falsy (empty) chunks are skipped,
and the progress callback runs only when a total size is known. -/
def downloadChunks (tbl : ProgressTbl) (name : String) (total downloaded : Nat) :
    List Nat → ProgressTbl
  | [] => tbl
  | c :: cs =>
    if c ≠ 0 then
      downloadChunks
        (if total ≠ 0 then progressCallbackTbl tbl name (downloaded + c) total else tbl)
        name total (downloaded + c) cs
    else downloadChunks tbl name total downloaded cs

/-- `download_file`'s effect on `downloading_progress` and its return value
(bot.py lines 173-216), for a transfer of derived name `name`:  `chunks`
are the chunk sizes received before the stream ended; `midstreamFail` means
the next read raised a `requests` exception, taking the `except` path
(lines 205-210), which returns `None` without touching the table.  On the
success path, `del downloading_progress[filename]` (lines 197-198) runs
only when a total size was known, and raises `KeyError` — caught by the
generic handler (lines 211-216), returning `None` — if no entry exists. -/
def downloadRun (tbl : ProgressTbl) (name : String) (total : Nat) (chunks : List Nat)
    (midstreamFail : Bool) : ProgressTbl × Option String :=
  let tbl1 := downloadChunks tbl name total 0 chunks
  if midstreamFail then (tbl1, none)
  else if total ≠ 0 then
    match (tbl1 : List (String × Nat)).lookup name with
    | some _ => (tbl1.filter (fun kv => kv.1 != name), some ("downloads/" ++ name))
    | none => (tbl1, none)
  else (tbl1, some ("downloads/" ++ name))

/-- JSON values, as returned by `response.json()`. -/
inductive JVal : Type
  | null : JVal
  | bool : Bool → JVal
  | num : Int → JVal
  | str : String → JVal
  | arr : List JVal → JVal
  | obj : List (String × JVal) → JVal

/-- Python exceptions that escape the `except` clauses of the source. -/
inductive PyExc : Type
  | keyError : PyExc
  | typeError : PyExc
deriving DecidableEq

/-- Outcome of running a piece of Python code: a returned value, or an
uncaught exception. -/
inductive PyResult (α : Type) : Type
  | ok : α → PyResult α
  | raised : PyExc → PyResult α

/-- Python truthiness of a JSON value. -/
def JVal.truthy : JVal → Bool
  | .null => false
  | .bool b => b
  | .num n => n != 0
  | .str s => s != ""
  | .arr xs => !xs.isEmpty
  | .obj fs => !fs.isEmpty

/-- Python `j[k]` on a decoded JSON value: `KeyError` on a missing key,
`TypeError` when the value is not a dict. -/
def JVal.getItem : JVal → String → PyResult JVal
  | .obj fs, k =>
    match fs.lookup k with
    | some v => PyResult.ok v
    | none => PyResult.raised PyExc.keyError
  | _, _ => PyResult.raised PyExc.typeError

/-- Result of the `requests.get` lookup in `get_file_path`: a
network-level `RequestException`, or an HTTP response with a status code
and a body (`none` = body is not valid JSON, so `response.json()` raises
`requests.exceptions.JSONDecodeError`, a `RequestException` subclass). -/
inductive HttpResult : Type
  | requestError : HttpResult
  | response : Nat → Option JVal → HttpResult

/-- `get_file_path` (bot.py lines 218-231).  `raise_for_status` raises
`HTTPError` (a `RequestException`) for status 400-599; the `except` clause
(lines 229-231) catches exactly `RequestException`, so a `KeyError` /
`TypeError` from indexing a malformed decoded body escapes uncaught. -/
def getFilePath : HttpResult → PyResult (Option JVal)
  | .requestError => PyResult.ok none
  | .response status body =>
    if 400 ≤ status ∧ status < 600 then PyResult.ok none
    else
      match body with
      | none => PyResult.ok none
      | some j =>
        match j.getItem "ok" with
        | .raised e => PyResult.raised e
        | .ok okv =>
          if okv.truthy then
            match j.getItem "result" with
            | .raised e => PyResult.raised e
            | .ok resv =>
              match resv.getItem "file_path" with
              | .raised e => PyResult.raised e
              | .ok fp => PyResult.ok (some fp)
          else PyResult.ok none

/-- Whether `get_file_path` returned its failure result `None`. -/
def returnsFailure (x : PyResult (Option JVal)) : Bool :=
  match x with
  | .ok none => true
  | _ => false

/-- Whether `get_file_path` returned a usable file path. -/
def returnsValue (x : PyResult (Option JVal)) : Bool :=
  match x with
  | .ok (some _) => true
  | _ => false

/-- The document branch of `process_file` (bot.py lines 240-252, 265-269):
whether a download is attempted for the resolved blob.  `get_file_path`
returning a falsy value (`None` or a falsy `file_path`) takes the
reply-and-return path (lines 250-252); an uncaught exception from
`get_file_path` propagates out of the handler.  Either way no download
happens. -/
def documentBranchDownloads (r : HttpResult) : PyResult Bool :=
  match getFilePath r with
  | .raised e => PyResult.raised e
  | .ok none => PyResult.ok false
  | .ok (some v) => PyResult.ok v.truthy

/-- The local `downloads/` directory: path ↦ abstract content tag. -/
def FSys : Type := List (String × Nat)

/-- POSIX semantics of `os.rename` (bot.py line 295): error when the
source does not exist; otherwise the file moves to the destination,
silently replacing any existing file there (a rename onto the same path is
a successful no-op). -/
def osRename (fs : FSys) (src dst : String) : Except Unit FSys :=
  match (fs : List (String × Nat)).lookup src with
  | none => Except.error ()
  | some c =>
    if src = dst then Except.ok fs
    else Except.ok ((dst, c) :: fs.filter (fun kv => kv.1 != src && kv.1 != dst))

/-- The global `settings` dict (bot.py lines 24-29).  The `prefix` /
`suffix` fields are named `pfx` / `sfx` because `prefix` is a Lean
keyword. -/
structure Settings : Type where
  renameMode : String
  pfx : String
  sfx : String
  uploadType : String

/-- How the post-download part of `process_file` exits. -/
inductive Outcome : Type
  | success : Outcome
  | uploadFailed : Outcome
  | unexpectedError : Outcome
  | nameError : Outcome
deriving DecidableEq

/-- The rename logic of `process_file` (bot.py lines 278-292) computing
`renamed_file` from the settings, the optional user-supplied name, the
staged file's basename and its extension.  `none` models the `NameError`
that would occur at line 294 were `rename_mode` neither `"manual"` nor
`"auto"` (unreachable through `/rename_mode`). -/
def computeRenamedFile (st : Settings) (desired : Option String)
    (filename ext : String) : Option String :=
  if st.renameMode = "manual" then
    let r := if optStrTruthy desired then sanitize_filename (desired.getD "")
             else sanitize_filename filename
    some (if !(pyEndsWith (pyLower r) (pyLower ext)) then r ++ ext else r)
  else if st.renameMode = "auto" then
    let r := sanitize_filename filename
    let r := if st.pfx ≠ "" then st.pfx ++ r else r
    some (if st.sfx ≠ "" then r ++ st.sfx else r)
  else none

/-- The `auto` branch in isolation (bot.py lines 287-292). -/
def renameAuto (pfx sfx filename : String) : String :=
  let r := sanitize_filename filename
  let r := if pfx ≠ "" then pfx ++ r else r
  if sfx ≠ "" then r ++ sfx else r

/-- The post-download part of `process_file` (bot.py lines 276-318): the
`try` block computes `renamed_file`, moves the staged file onto
`downloads/renamed_file`, and uploads; the inner `except` (lines 306-311)
turns an upload failure into a reply-and-return, the outer `except`
(lines 313-315) absorbs everything else, and the `finally` (lines 316-318)
removes the file at `renamed_file_path` if one exists there.
`renameRaises` injects an OS-level failure of `os.rename` (e.g.
`ENAMETOOLONG` when prefix/suffix push the name over the filesystem
limit); `uploadRaises` injects a failure of `bot.send_document`.
In the `nameError` case the `finally` itself hits the unbound
`renamed_file_path` and cleans nothing. -/
def processFileAfterDownload (fs : FSys) (stagedName : String) (st : Settings)
    (desired : Option String) (renameRaises uploadRaises : Bool) : FSys × Outcome :=
  let localPath := "downloads/" ++ stagedName
  let filename := lastSegment localPath
  let ext := splitextExt filename
  match computeRenamedFile st desired filename ext with
  | none => (fs, Outcome.nameError)
  | some renamedFile =>
    let renamedPath := "downloads/" ++ renamedFile
    let step : FSys × Outcome :=
      if renameRaises then (fs, Outcome.unexpectedError)
      else
        match osRename fs localPath renamedPath with
        | Except.error _ => (fs, Outcome.unexpectedError)
        | Except.ok fs1 =>
          if st.uploadType = "media" then
            if uploadRaises then (fs1, Outcome.uploadFailed) else (fs1, Outcome.success)
          else (fs1, Outcome.success)
    (if ((step.1 : List (String × Nat)).lookup renamedPath).isSome then
        step.1.filter (fun kv => kv.1 != renamedPath)
      else step.1,
     step.2)

/-- Inspect the result of the rename step: `none` when `os.rename` errors,
otherwise the content found at the destination afterwards. -/
def osRenameThenLookup (fs : FSys) (src dst : String) : Option (Option Nat) :=
  match osRename fs src dst with
  | Except.error _ => none
  | Except.ok fs' => some ((fs' : List (String × Nat)).lookup dst)

/-! ## Theorems -/

/-- C6: for every input string, the sanitizer's output contains none of the
characters `< > : " / \ | ? *`, its length is at most 200, and an input that
becomes empty after stripping those characters yields the empty string. -/
theorem c6_sanitizer (s : String) :
    (∀ c ∈ (sanitize_filename s).data, isInvalidChar c = false)
    ∧ (sanitize_filename s).length ≤ 200
    ∧ (s.data.filter (fun c => !(isInvalidChar c)) = [] → sanitize_filename s = "") := by
  refine ⟨?_, ?_, ?_⟩
  · intro c hc
    have hc' : c ∈ s.data.filter (fun c => !(isInvalidChar c)) := List.mem_of_mem_take hc
    have h := (List.mem_filter.mp hc').2
    simpa using h
  · show ((s.data.filter (fun c => !(isInvalidChar c))).take 200).length ≤ 200
    rw [List.length_take]
    exact min_le_left _ _
  · intro h
    unfold sanitize_filename
    rw [h]
    rfl

/-- Witness for C6 at concrete inputs. -/
theorem c6_sanitizer_witness :
    isInvalidChar 'a' = false
    ∧ (sanitize_filename "a<b").length ≤ 200
    ∧ sanitize_filename "<>" = "" :=
  ⟨(c6_sanitizer "a<b").1 'a' (by decide), (c6_sanitizer "a<b").2.1,
   (c6_sanitizer "<>").2.2 (by decide)⟩

/-- C7 counterexample: a negative duration is rendered with its sign, not
as `0s`. -/
theorem c7_counterexample : format_time (-5) = "-5s" ∧ format_time (-5) ≠ "0s" :=
  ⟨rfl, by decide⟩

/-- C7 (amended): zero or negative durations do not throw; a zero duration
renders as `0s`, but a negative duration renders as its signed integer
value followed by `s` (e.g. `-5s`), not as `0s`. -/
theorem c7_format_time_nonpos (z : Int) (h : z ≤ 0) :
    format_time z = intStr z ++ "s" := by
  unfold format_time
  rw [if_pos (by omega)]

/-- Witness for C7 at a concrete input. -/
theorem c7_format_time_witness : format_time 0 = "0s" := by
  have h := c7_format_time_nonpos 0 (by decide)
  rw [h]
  rfl

/-- C9: in auto mode the final name is always the configured prefix,
followed by the sanitized original name, followed by the configured suffix;
in particular prefix `pre_`, suffix `_v2` and staged name `photo.jpg` give
`pre_photo.jpg_v2`. -/
theorem c9_auto_mode :
    (∀ pfx sfx filename, renameAuto pfx sfx filename
        = pfx ++ sanitize_filename filename ++ sfx)
    ∧ renameAuto "pre_" "_v2" "photo.jpg" = "pre_photo.jpg_v2" := by
  constructor
  · intro p s f
    unfold renameAuto
    by_cases hp : p = "" <;> by_cases hs : s = "" <;>
      simp [hp, hs, String.empty_append, String.append_empty, String.append_assoc]
  · rfl

/-- C1 (violating evaluation): a run whose download succeeded but whose
rename step raises an OS error exits with the artifact still present at the
staging path `downloads/a.txt` — the `finally` block checks only
`renamed_file_path`, so nothing is deleted. -/
theorem c1_cleanup_violation :
    processFileAfterDownload [("downloads/a.txt", 7)] "a.txt"
        ⟨"auto", "pre_", "", "media"⟩ none true false
      = ([("downloads/a.txt", 7)], Outcome.unexpectedError) := rfl

/-- C2 (violating evaluation): a download of total size 100 that fails
mid-stream after one 10-byte chunk returns `None` and leaves the
progress-tracker entry for `a.txt` (with `prev_percentage = 10`) in the
table — the `del` at line 198 runs only on the success path. -/
theorem c2_leak_violation :
    downloadRun [] "a.txt" 100 [10] true = ([("a.txt", 10)], none) := rfl

/-- C8: the candidate-name derivation of the downloader agrees, for every
input, with the spec's description: base name from the sanitized desired
name if given, else from the sanitized final URL-path segment, else the
generic placeholder; `.txt` appended exactly when no allow-listed extension
matches case-insensitively. -/
theorem c8_candidate_name (nm : Option String) (urlPath : String) :
    deriveCandidate nm urlPath = candidateSpec nm urlPath := by
  unfold deriveCandidate candidateSpec
  by_cases h1 : optStrTruthy nm
  · simp [h1]
  · by_cases h2 : urlPath = ""
    · simp [h1, h2]
      decide
    · simp [h1, h2]

/-- C4 counterexample: with `report.txt`-style staged file `downloads/a.txt`
(content tag 7) and an existing destination `downloads/b.txt` (content tag
5), the move succeeds with no error — the destination is silently replaced
by the staged content — and the whole handler run reports success rather
than any internal error. -/
theorem c4_counterexample :
    osRename [("downloads/a.txt", 7), ("downloads/b.txt", 5)]
        "downloads/a.txt" "downloads/b.txt"
      = Except.ok [("downloads/b.txt", 7)]
    ∧ (processFileAfterDownload [("downloads/a.txt", 7), ("downloads/b.txt", 5)]
        "a.txt" ⟨"manual", "", "", "media"⟩ (some "b") false false).2
      = Outcome.success :=
  ⟨rfl, rfl⟩

/-- C4 (amended): the rename step never checks the destination: whenever
the staged source exists, `os.rename` succeeds and the destination
afterwards holds the staged content — any pre-existing destination file is
silently overwritten, and no internal error is raised. -/
theorem c4_rename_overwrites (fs : FSys) (src dst : String) (c : Nat)
    (h : (fs : List (String × Nat)).lookup src = some c) :
    osRenameThenLookup fs src dst = some (some c) := by
  unfold osRenameThenLookup osRename
  rw [h]
  by_cases hd : src = dst
  · subst hd
    simpa using h
  · simp [hd, List.lookup]

/-- Witness for C4 at a concrete input (destination initially occupied). -/
theorem c4_rename_witness :
    osRenameThenLookup [("downloads/x", 1), ("downloads/y", 2)]
      "downloads/x" "downloads/y" = some (some 1) :=
  c4_rename_overwrites [("downloads/x", 1), ("downloads/y", 2)]
    "downloads/x" "downloads/y" 1 (by decide)

/-- C5 counterexample: a well-formed HTTP 200 response whose JSON body is
`{"ok": true}` with no `result` key is malformed in the claim's sense, yet
`get_file_path` neither returns its failure result `None` nor a usable
value — it raises an uncaught `KeyError` (`KeyError` is not a
`RequestException`, so the `except` clause does not catch it). -/
theorem c5_counterexample :
    returnsFailure (getFilePath (HttpResult.response 200
        (some (JVal.obj [("ok", JVal.bool true)])))) = false
    ∧ returnsValue (getFilePath (HttpResult.response 200
        (some (JVal.obj [("ok", JVal.bool true)])))) = false
    ∧ getFilePath (HttpResult.response 200 (some (JVal.obj [("ok", JVal.bool true)])))
      = PyResult.raised PyExc.keyError :=
  ⟨rfl, rfl, rfl⟩

/-- C5 (amended): resolution returns the failure result `None` when the
lookup errors at the network level, when the HTTP status is 4xx/5xx, when
the body is not valid JSON, and when the decoded body reports a falsy
`ok`; a structurally malformed success body instead raises an uncaught
exception; and a download is attempted exactly when resolution returns a
truthy file path, so no download is attempted on any resolution failure. -/
theorem c5_resolution_failure :
    getFilePath HttpResult.requestError = PyResult.ok none
    ∧ (∀ status body, 400 ≤ status → status < 600 →
        getFilePath (HttpResult.response status body) = PyResult.ok none)
    ∧ (∀ status, getFilePath (HttpResult.response status none) = PyResult.ok none)
    ∧ (∀ status j okv, JVal.getItem j "ok" = PyResult.ok okv → okv.truthy = false →
        getFilePath (HttpResult.response status (some j)) = PyResult.ok none)
    ∧ (∀ r, documentBranchDownloads r = PyResult.ok true ↔
        ∃ v, getFilePath r = PyResult.ok (some v) ∧ v.truthy = true) := by
  refine ⟨rfl, ?_, ?_, ?_, ?_⟩
  · intro status body h1 h2
    simp only [getFilePath]
    rw [if_pos ⟨h1, h2⟩]
  · intro status
    simp only [getFilePath]
    by_cases h : 400 ≤ status ∧ status < 600
    · rw [if_pos h]
    · rw [if_neg h]
  · intro status j okv hok htr
    simp only [getFilePath]
    by_cases h : 400 ≤ status ∧ status < 600
    · rw [if_pos h]
    · rw [if_neg h]
      simp [hok, htr]
  · intro r
    unfold documentBranchDownloads
    rcases hr : getFilePath r with v | e
    · rcases v with _ | w
      · simp
      · simp [hr]
    · simp

/-- Witness for C5 at concrete inputs. -/
theorem c5_resolution_witness :
    getFilePath (HttpResult.response 500 (some (JVal.obj [("ok", JVal.bool true)])))
      = PyResult.ok none
    ∧ getFilePath (HttpResult.response 200 (some (JVal.obj [("ok", JVal.bool false)])))
      = PyResult.ok none
    ∧ documentBranchDownloads (HttpResult.response 200
        (some (JVal.obj [("ok", JVal.bool true),
          ("result", JVal.obj [("file_path", JVal.str "documents/x.bin")])])))
      = PyResult.ok true :=
  ⟨c5_resolution_failure.2.1 500 (some (JVal.obj [("ok", JVal.bool true)]))
      (by decide) (by decide),
   c5_resolution_failure.2.2.2.1 200 (JVal.obj [("ok", JVal.bool false)])
      (JVal.bool false) rfl rfl,
   (c5_resolution_failure.2.2.2.2 (HttpResult.response 200
        (some (JVal.obj [("ok", JVal.bool true),
          ("result", JVal.obj [("file_path", JVal.str "documents/x.bin")])])))).mpr
     ⟨JVal.str "documents/x.bin", rfl, rfl⟩⟩

/-- Every emission strictly exceeds the stored percentage the run started
from. -/
theorem trackEmits_gt (total : Nat) :
    ∀ (cs : List Nat) (prev : Nat), ∀ x ∈ trackEmits prev total cs, prev < x.1 := by
  intro cs
  induction cs with
  | nil => intro prev x hx; simp [trackEmits] at hx
  | cons c cs ih =>
    intro prev x hx
    by_cases h : prev < percentOf c total
    · rw [trackEmits, if_pos h] at hx
      rcases List.mem_cons.mp hx with rfl | hx'
      · exact h
      · exact lt_trans h (ih (percentOf c total) x hx')
    · rw [trackEmits, if_neg h] at hx
      exact ih prev x hx

/-- The emitted percentages are strictly increasing. -/
theorem trackEmits_chain (total : Nat) :
    ∀ (cs : List Nat) (prev : Nat),
      List.Chain' (· < ·) ((trackEmits prev total cs).map Prod.fst) := by
  intro cs
  induction cs with
  | nil => intro prev; simp [trackEmits]
  | cons c cs ih =>
    intro prev
    by_cases h : prev < percentOf c total
    · rw [trackEmits, if_pos h, List.map_cons]
      refine List.chain'_cons'.mpr ⟨?_, ih (percentOf c total)⟩
      intro y hy
      rcases hE : trackEmits (percentOf c total) total cs with _ | ⟨e, es⟩
      · rw [hE] at hy; simp at hy
      · rw [hE] at hy
        simp only [List.map_cons, List.head?_cons, Option.mem_def, Option.some.injEq] at hy
        subst hy
        exact trackEmits_gt total cs (percentOf c total) e (by rw [hE]; exact List.mem_cons_self e es)
    · rw [trackEmits, if_neg h]
      exact ih prev

/-- Every emission's percentage comes from some call of the sequence, and
its completion marker is present exactly when that percentage is 100. -/
theorem trackEmits_val (total : Nat) :
    ∀ (cs : List Nat) (prev : Nat), ∀ x ∈ trackEmits prev total cs,
      (∃ c ∈ cs, x.1 = percentOf c total) ∧ x.2 = (x.1 == 100) := by
  intro cs
  induction cs with
  | nil => intro prev x hx; simp [trackEmits] at hx
  | cons c cs ih =>
    intro prev x hx
    by_cases h : prev < percentOf c total
    · rw [trackEmits, if_pos h] at hx
      rcases List.mem_cons.mp hx with rfl | hx'
      · exact ⟨⟨c, List.mem_cons_self c cs, rfl⟩, rfl⟩
      · rcases ih (percentOf c total) x hx' with ⟨⟨d, hd, hval⟩, hsnd⟩
        exact ⟨⟨d, List.mem_cons_of_mem c hd, hval⟩, hsnd⟩
    · rw [trackEmits, if_neg h] at hx
      rcases ih prev x hx with ⟨⟨d, hd, hval⟩, hsnd⟩
      exact ⟨⟨d, List.mem_cons_of_mem c hd, hval⟩, hsnd⟩

/-- If all percentages stay at or below 100, the stored percentage starts
below 100 and some call maps to exactly 100, then the rendering `100` with
the completion marker is emitted. -/
theorem trackEmits_has100 (total : Nat) :
    ∀ (cs : List Nat) (prev : Nat), prev < 100 →
      (∀ c ∈ cs, percentOf c total ≤ 100) →
      (∃ c ∈ cs, percentOf c total = 100) →
      (100, true) ∈ trackEmits prev total cs := by
  intro cs
  induction cs with
  | nil => intro prev _ _ hex; simp at hex
  | cons c cs ih =>
    intro prev hprev hle hex
    by_cases hc : percentOf c total = 100
    · have h : prev < percentOf c total := by omega
      rw [trackEmits, if_pos h]
      exact List.mem_cons.mpr (Or.inl (by rw [hc]; rfl))
    · have hex' : ∃ d ∈ cs, percentOf d total = 100 := by
        rcases hex with ⟨d, hd, hd100⟩
        rcases List.mem_cons.mp hd with rfl | hd'
        · exact absurd hd100 hc
        · exact ⟨d, hd', hd100⟩
      have hle' : ∀ d ∈ cs, percentOf d total ≤ 100 :=
        fun d hd => hle d (List.mem_cons_of_mem c hd)
      by_cases h : prev < percentOf c total
      · rw [trackEmits, if_pos h]
        refine List.mem_cons_of_mem _ (ih (percentOf c total) ?_ hle' hex')
        have := hle c (List.mem_cons_self c cs)
        omega
      · rw [trackEmits, if_neg h]
        exact ih prev hprev hle' hex'

/-- In a strictly increasing list, every element is at most the last one. -/
theorem pairwise_lt_le_getLast? (l : List Nat) (hp : List.Pairwise (· < ·) l) :
    ∀ x ∈ l, ∀ y ∈ l.getLast?, x ≤ y := by
  induction l with
  | nil => simp
  | cons a l ih =>
    intro x hx y hy
    cases l with
    | nil =>
      simp at hx hy
      omega
    | cons b l' =>
      rw [List.getLast?_cons_cons] at hy
      rcases List.mem_cons.mp hx with rfl | hx'
      · have hy' : y ∈ b :: l' := List.mem_of_mem_getLast? hy
        exact le_of_lt (List.rel_of_pairwise_cons hp hy')
      · exact ih hp.of_cons x hx' y hy

/-- C3: for a monotonically increasing sequence of cumulative byte counts
with `0 < bytesDone ≤ bytesTotal` that reaches `bytesTotal`, the tracker
(started from a fresh entry, stored percentage 0) emits strictly increasing
percentages, the final emission is exactly 100 and carries the completion
marker, and no percentage is ever emitted twice (two calls mapping to the
same floor percentage produce only one emission). -/
theorem c3_tracker_monotone (total : Nat) (cs : List Nat)
    (htotal : 0 < total)
    (hmono : List.Chain' (· ≤ ·) cs)
    (hrange : ∀ c ∈ cs, 0 < c ∧ c ≤ total)
    (hlast : cs.getLast? = some total) :
    List.Chain' (· < ·) ((trackEmits 0 total cs).map Prod.fst)
    ∧ (trackEmits 0 total cs).getLast? = some (100, true)
    ∧ ((trackEmits 0 total cs).map Prod.fst).Nodup := by
  have hfull : percentOf total total = 100 := by
    show total * 100 / total = 100
    exact Nat.mul_div_cancel_left 100 htotal
  have hle : ∀ c ∈ cs, percentOf c total ≤ 100 := by
    intro c hc
    have h1 : c * 100 ≤ total * 100 := Nat.mul_le_mul_right _ (hrange c hc).2
    calc c * 100 / total ≤ total * 100 / total := Nat.div_le_div_right h1
      _ = 100 := Nat.mul_div_cancel_left 100 htotal
  have h100 : (100, true) ∈ trackEmits 0 total cs := by
    refine trackEmits_has100 total cs 0 (by omega) hle ?_
    exact ⟨total, List.mem_of_mem_getLast? hlast, hfull⟩
  have hchain := trackEmits_chain total cs 0
  have hpw : List.Pairwise (· < ·) ((trackEmits 0 total cs).map Prod.fst) :=
    List.chain'_iff_pairwise.mp hchain
  refine ⟨hchain, ?_, hpw.imp Nat.ne_of_lt⟩
  have hne : trackEmits 0 total cs ≠ [] := List.ne_nil_of_mem h100
  have hy : (trackEmits 0 total cs).getLast? = some ((trackEmits 0 total cs).getLast hne) :=
    List.getLast?_eq_getLast_of_ne_nil hne
  set y := (trackEmits 0 total cs).getLast hne with hydef
  have hymem : y ∈ trackEmits 0 total cs := List.getLast_mem hne
  have hval := trackEmits_val total cs 0 y hymem
  have hy1le : y.1 ≤ 100 := by
    rcases hval.1 with ⟨c, hc, heq⟩
    rw [heq]
    exact hle c hc
  have h100le : 100 ≤ y.1 := by
    refine pairwise_lt_le_getLast? _ hpw 100 ?_ y.1 ?_
    · exact List.mem_map_of_mem Prod.fst h100
    · rw [List.getLast?_map, hy]
      rfl
  have hfst : y.1 = 100 := le_antisymm hy1le h100le
  have hsnd : y.2 = true := by rw [hval.2, hfst]; rfl
  have hy2 : y = (100, true) := Prod.ext hfst hsnd
  rw [hy, hy2]

/-- Witness for C3 at a concrete run: total 10, cumulative bytes 1, 5, 10
(emitting 10, 50 and finally 100 with the marker). -/
theorem c3_tracker_witness :
    List.Chain' (· < ·) ((trackEmits 0 10 [1, 5, 10]).map Prod.fst)
    ∧ (trackEmits 0 10 [1, 5, 10]).getLast? = some (100, true)
    ∧ ((trackEmits 0 10 [1, 5, 10]).map Prod.fst).Nodup :=
  c3_tracker_monotone 10 [1, 5, 10] (by decide) (by simp [List.chain'_cons])
    (by decide) (by decide)

/-- C10: starting from a fresh tracker entry (stored percentage 0), the
percentage 0 is never emitted — an emission needs a strictly greater
percentage — and, as long as the byte counts do not exceed the total, at
most 100 emissions occur for the transfer. -/
theorem c10_tracker_bounds (total : Nat) (cs : List Nat)
    (hle : ∀ c ∈ cs, c ≤ total) :
    ((trackEmits 0 total cs).map Prod.fst).count 0 = 0
    ∧ (trackEmits 0 total cs).length ≤ 100 := by
  have hgt : ∀ x ∈ trackEmits 0 total cs, 0 < x.1 := trackEmits_gt total cs 0
  constructor
  · rw [List.count_eq_zero]
    intro h0
    rcases List.mem_map.mp h0 with ⟨x, hx, hfst⟩
    have := hgt x hx
    omega
  · have hpw : ((trackEmits 0 total cs).map Prod.fst).Pairwise (· < ·) :=
      List.chain'_iff_pairwise.mp (trackEmits_chain total cs 0)
    have hnd : ((trackEmits 0 total cs).map Prod.fst).Nodup := hpw.imp Nat.ne_of_lt
    have hmem : ∀ p ∈ (trackEmits 0 total cs).map Prod.fst, p ∈ Finset.Icc 1 100 := by
      intro p hp
      rcases List.mem_map.mp hp with ⟨x, hx, rfl⟩
      have h1 : 0 < x.1 := hgt x hx
      have h2 : x.1 ≤ 100 := by
        rcases (trackEmits_val total cs 0 x hx).1 with ⟨c, hc, heq⟩
        rcases Nat.eq_zero_or_pos total with h0 | hpos
        · rw [heq, h0] at h1
          simp [percentOf] at h1
        · rw [heq]
          have hm : c * 100 ≤ total * 100 := Nat.mul_le_mul_right _ (hle c hc)
          calc c * 100 / total ≤ total * 100 / total := Nat.div_le_div_right hm
            _ = 100 := Nat.mul_div_cancel_left 100 hpos
      exact Finset.mem_Icc.mpr ⟨h1, h2⟩
    have hsub : ((trackEmits 0 total cs).map Prod.fst).toFinset ⊆ Finset.Icc 1 100 :=
      fun p hp => hmem p (List.mem_toFinset.mp hp)
    have hcard := Finset.card_le_card hsub
    rw [List.toFinset_card_of_nodup hnd, Nat.card_Icc] at hcard
    have hlm : ((trackEmits 0 total cs).map Prod.fst).length
        = (trackEmits 0 total cs).length := List.length_map _ _
    omega

/-- Witness for C10 at a concrete run. -/
theorem c10_tracker_witness :
    ((trackEmits 0 10 [5, 10]).map Prod.fst).count 0 = 0
    ∧ (trackEmits 0 10 [5, 10]).length ≤ 100 :=
  c10_tracker_bounds 10 [5, 10] (by decide)
